import Mathlib

/-!
Verification of the Pod021/Pod042 persona-styling core.

The development shallowly embeds the two source modules that carry the
repository's decision logic:

* `src/pod021/src/mastra/tools/pod021-formatter-tool.ts` — category
  classifier (`detectResponseType`), style transformer
  (`formatToPod021Style`), side-info extractor (`extractAdditionalInfo`),
  response assembler (`generatePod021Response`), exception-style overlay
  (`applyIntimacyPhase`);
* `src/pod021/src/mastra/agents/pod042-agent.ts` — the familiarity state
  machine (`IntimacyManager`).

Strings are modelled as `List Char` (exactly the code-point sequence of a
JavaScript string).  JavaScript `number` arithmetic in the familiarity
tracker is IEEE-754 binary64: each double is modelled as the exact rational
it denotes, literals as their nearest binary64 values, and every `+=` as
exact addition followed by the round-to-nearest-even projection
`roundDouble` onto 53 significant bits.  Regex operations are embedded as
explicit leftmost-match scanners specialised to the literal patterns
appearing in the source.
-/

namespace Pod021

/-- JavaScript `String.prototype.includes` on the `List Char` model:
`includes needle hay` is true iff `needle` occurs contiguously in `hay`. -/
def includes (needle : List Char) : List Char → Bool
  | [] => needle.isEmpty
  | c :: rest => needle.isPrefixOf (c :: rest) || includes needle rest

/-- Character-wise model of `String.prototype.toLowerCase`.  Only the ASCII
range is case-mapped (every keyword the source compares against is
Japanese or full-width and is a fixed point of the real `toLowerCase` as
well as of this model). -/
def jsToLower (c : Char) : Char := c.toLower

/-- The whitespace class of the JavaScript `\s` regex escape and of
`String.prototype.trim`. -/
def isJsWs (c : Char) : Bool :=
  [' ', '\t', '\n', '\r', '\x0b', '\x0c', '\u00a0', '\u1680',
   '\u2000', '\u2001', '\u2002', '\u2003', '\u2004', '\u2005', '\u2006',
   '\u2007', '\u2008', '\u2009', '\u200a', '\u2028', '\u2029',
   '\u202f', '\u205f', '\u3000', '\ufeff'].contains c

/-! ### Category classifier (`detectResponseType`, formatter tool lines 57–93) -/

/-- Embedding of `detectResponseType`: ordered keyword rules over the
lower-cased response, then a context fallback, then the default `報告`.
Categories are the runtime values of the `ResponseType` zod enum, i.e.
plain strings. -/
def detectResponseType (response : List Char) (context : Option (List Char)) : List Char :=
  let lowerResponse := response.map jsToLower
  let lowerContext := (context.map (fun l => l.map jsToLower)).getD []
  if includes "追加".toList lowerResponse || includes "登録".toList lowerResponse ||
     includes "設定".toList lowerResponse then "承認".toList
  else if includes "わかり".toList lowerResponse || includes "了解".toList lowerResponse ||
     includes "実行".toList lowerResponse then "了解".toList
  else if includes "おすすめ".toList lowerResponse || includes "提案".toList lowerResponse ||
     includes "〜してみて".toList lowerResponse then "提案".toList
  else if includes "警告".toList lowerResponse || includes "注意".toList lowerResponse ||
     includes "危険".toList lowerResponse then "警告".toList
  else if includes "分析".toList lowerResponse || includes "データ".toList lowerResponse ||
     includes "統計".toList lowerResponse then "分析".toList
  else if includes "？".toList lowerResponse || includes "確認".toList lowerResponse ||
     includes "よろしい".toList lowerResponse then "確認".toList
  else if includes "？".toList lowerContext || includes "教えて".toList lowerContext ||
     includes "どう".toList lowerContext then "回答".toList
  else "報告".toList

/-- The eight runtime values of the `ResponseType` zod enum
(formatter tool lines 5–14). -/
def responseTypeValues : List (List Char) :=
  ["報告".toList, "提案".toList, "回答".toList, "承認".toList,
   "了解".toList, "分析".toList, "警告".toList, "確認".toList]

/-- Membership in the fixed eight-member category taxonomy. -/
def isValidResponseType (type : List Char) : Bool :=
  responseTypeValues.contains type

/-! ### Style transformer (`formatToPod021Style`, formatter tool lines 98–144)

Each `.replace(pattern, rep)` with a `/…/g` literal-string pattern is a
left-to-right scan replacing every (non-overlapping) occurrence; the scan
resumes after the replacement text is emitted, exactly as a JavaScript
global regex does.  The scanners are written with an explicit fuel
argument (initialised to the string length, which every step strictly
decreases) so that they are structurally recursive and kernel-reducible. -/

/-- Fuelled scanner for `.replace(/pat/g, rep)` with a literal pattern. -/
def replaceAllGo (pat rep : List Char) : Nat → List Char → List Char
  | _, [] => []
  | 0, s => s
  | fuel + 1, c :: rest =>
    if pat.isPrefixOf (c :: rest) then
      rep ++ replaceAllGo pat rep fuel ((c :: rest).drop pat.length)
    else
      c :: replaceAllGo pat rep fuel rest

/-- JavaScript `s.replace(/pat/g, rep)` for a nonempty literal pattern. -/
def replaceAll (pat rep s : List Char) : List Char :=
  replaceAllGo pat rep s.length s

/-- Fuelled scanner for the three politeness rules of the form
`.replace(/pat。?/g, '。')`: at each position the greedy regex first tries
`pat` followed by `。`, then bare `pat`. -/
def replaceOptGo (pat : List Char) : Nat → List Char → List Char
  | _, [] => []
  | 0, s => s
  | fuel + 1, c :: rest =>
    if (pat ++ ['。']).isPrefixOf (c :: rest) then
      '。' :: replaceOptGo pat fuel ((c :: rest).drop (pat.length + 1))
    else if pat.isPrefixOf (c :: rest) then
      '。' :: replaceOptGo pat fuel ((c :: rest).drop pat.length)
    else
      c :: replaceOptGo pat fuel rest

/-- JavaScript `s.replace(/pat。?/g, '。')`. -/
def replaceOpt (pat s : List Char) : List Char :=
  replaceOptGo pat s.length s

/-- Steps 1–3 of `formatToPod021Style`: the ordered substitution chain
(politeness removal, emotion-word mapping, persona expressions), in the
exact order of the source. -/
def applySubstitutions (response : List Char) : List Char :=
  let f := replaceOpt "です".toList response
  let f := replaceOpt "ます".toList f
  let f := replaceOpt "でしょう".toList f
  let f := replaceAll "だと思います".toList "と判断する".toList f
  let f := replaceAll "〜かもしれません".toList "〜の可能性がある".toList f
  let f := replaceAll "お疲れ様".toList "".toList f
  let f := replaceAll "ありがとう".toList "".toList f
  let f := replaceAll "すみません".toList "".toList f
  let f := replaceAll "恐れ入り".toList "".toList f
  let f := replaceAll "嬉しい".toList "好ましい状態".toList f
  let f := replaceAll "楽しい".toList "効率的".toList f
  let f := replaceAll "悲しい".toList "非効率的状態".toList f
  let f := replaceAll "驚く".toList "予期しない事象".toList f
  let f := replaceAll "感動".toList "効果的反応".toList f
  let f := replaceAll "私は".toList "当機は".toList f
  let f := replaceAll "僕は".toList "当機は".toList f
  let f := replaceAll "あなた".toList "ユーザー".toList f
  let f := replaceAll "君".toList "ユーザー".toList f
  let f := replaceAll "できました".toList "完了".toList f
  let f := replaceAll "しました".toList "実行".toList f
  let f := replaceAll "見つけました".toList "検出".toList f
  let f := replaceAll "調べました".toList "解析".toList f
  f

/-- Step 4 of `formatToPod021Style`: `if (!formatted.endsWith('。')) formatted += '。'`. -/
def padMark (s : List Char) : List Char :=
  if s.getLast? = some '。' then s else s ++ ['。']

/-- JavaScript `s.replace(/。。+/g, '。')`: every maximal run of two or more
`。` collapses to a single `。`.  Written as a right fold so that it is
structurally recursive; the result (each maximal run of `。` becomes one
`。`) coincides with the left-to-right regex scan. -/
def collapseMarks : List Char → List Char
  | [] => []
  | a :: rest =>
    match collapseMarks rest with
    | [] => [a]
    | b :: t => if a = '。' ∧ b = '。' then b :: t else a :: b :: t

/-- JavaScript `s.replace(/\s+/g, ' ')`: every maximal whitespace run
collapses to a single space.  Right-fold formulation, equal to the regex
scan. -/
def collapseWs : List Char → List Char
  | [] => []
  | a :: rest =>
    match collapseWs rest with
    | [] => if isJsWs a then [' '] else [a]
    | b :: t =>
      if isJsWs a ∧ isJsWs b then b :: t
      else (if isJsWs a then ' ' else a) :: b :: t

/-- Leading-whitespace half of `String.prototype.trim`. -/
def trimLeft (s : List Char) : List Char := s.dropWhile isJsWs

/-- Trailing-whitespace half of `String.prototype.trim`. -/
def trimRight (s : List Char) : List Char := (s.reverse.dropWhile isJsWs).reverse

/-- JavaScript `String.prototype.trim`. -/
def jsTrim (s : List Char) : List Char := trimRight (trimLeft s)

/-- Steps 4–5 of `formatToPod021Style`: append the terminal mark when
missing, then collapse repeated marks, collapse whitespace and trim. -/
def normalizeTerminal (s : List Char) : List Char :=
  jsTrim (collapseWs (collapseMarks (padMark s)))

/-- Embedding of `formatToPod021Style` (the Style Transformer): the
substitution chain followed by terminal-mark normalization.  The `type`
argument is received but, as in the source, never examined. -/
def formatToPod021Style (response : List Char) (type : List Char) : List Char :=
  normalizeTerminal (applySubstitutions response)

/-! ### Side-info extractor (`extractAdditionalInfo`, formatter tool lines 149–169)

The three regexes are embedded as leftmost-match scanners.  For each of
these concrete patterns the JavaScript backtracking search agrees with the
greedy maximal-munch scan implemented here, because no pattern element can
match a character that the following literal element also matches. -/

/-- Leftmost match of `/(\d+)件/`, returning the digit capture group. -/
def findCountCapture : List Char → Option (List Char)
  | [] => none
  | c :: rest =>
    if c.isDigit then
      match (c :: rest).dropWhile Char.isDigit with
      | '件' :: _ => some ((c :: rest).takeWhile Char.isDigit)
      | _ => findCountCapture rest
    else findCountCapture rest

/-- Anchored match of `\d{1,2}sep` (greedy: two digits preferred), returning
the consumed characters (digits and separator) and the remainder. -/
def matchHM (sep : Char) : List Char → Option (List Char × List Char)
  | a :: b :: c :: rest =>
    if a.isDigit && b.isDigit && (c = sep) then some ([a, b, c], rest)
    else if a.isDigit && (b = sep) then some ([a, b], c :: rest)
    else none
  | [a, b] => if a.isDigit && (b = sep) then some ([a, b], []) else none
  | _ => none

/-- Anchored match of `/(\d{1,2}時\d{1,2}分)|(\d{1,2}:\d{2})/` at the start of
the list, returning the whole matched text (`match[0]`); the first
alternative is preferred, as in JavaScript. -/
def tryTimeAt (l : List Char) : Option (List Char) :=
  match matchHM '時' l with
  | some (h, rest) =>
    match matchHM '分' rest with
    | some (m, _) => some (h ++ m)
    | none => none
  | none =>
    match matchHM ':' l with
    | some (h, rest) =>
      match rest with
      | a :: b :: _ => if a.isDigit && b.isDigit then some (h ++ [a, b]) else none
      | _ => none
    | none => none

/-- Leftmost match of the time regex, returning `match[0]`. -/
def findTimeMatch : List Char → Option (List Char)
  | [] => none
  | c :: rest =>
    match tryTimeAt (c :: rest) with
    | some m => some m
    | none => findTimeMatch rest

/-- Anchored match of `\d+\.?\d*` followed by the literal `unit`, returning
the whole matched text. -/
def tryNumUnit (unit : List Char) (l : List Char) : Option (List Char) :=
  match l with
  | c :: _ =>
    if c.isDigit then
      let d1 := l.takeWhile Char.isDigit
      let r1 := l.dropWhile Char.isDigit
      let pr : List Char × List Char :=
        match r1 with
        | '.' :: t => (d1 ++ '.' :: t.takeWhile Char.isDigit, t.dropWhile Char.isDigit)
        | _ => (d1, r1)
      if unit.isPrefixOf pr.2 then some (pr.1 ++ unit) else none
    else none
  | [] => none

/-- Anchored match of `(\d+)個`, returning the whole matched text. -/
def tryNumItems (l : List Char) : Option (List Char) :=
  match l with
  | c :: _ =>
    if c.isDigit then
      match l.dropWhile Char.isDigit with
      | '個' :: _ => some (l.takeWhile Char.isDigit ++ ['個'])
      | _ => none
    else none
  | [] => none

/-- Anchored match of `/(\d+\.?\d*)MB|(\d+\.?\d*)GB|(\d+)個/`, alternatives
tried in source order. -/
def tryDataAt (l : List Char) : Option (List Char) :=
  match tryNumUnit "MB".toList l with
  | some m => some m
  | none =>
    match tryNumUnit "GB".toList l with
    | some m => some m
    | none => tryNumItems l

/-- Leftmost match of the data-volume regex, returning `match[0]`. -/
def findDataMatch : List Char → Option (List Char)
  | [] => none
  | c :: rest =>
    match tryDataAt (c :: rest) with
    | some m => some m
    | none => findDataMatch rest

/-- One `if (match && gate) return template(match)` step of
`extractAdditionalInfo`: when the pattern matched and the category gate is
satisfied the formatted annotation is returned, otherwise control falls
through to `rest`. -/
def gateStep (o : Option (List Char)) (gate : Bool) (template : List Char → List Char)
    (rest : Option (List Char)) : Option (List Char) :=
  match o, gate with
  | some d, true => some (template d)
  | _, _ => rest

/-- Embedding of `extractAdditionalInfo`: category-gated pattern extraction;
count for `承認`/`報告`, time for `了解`, data volume for `分析`, otherwise
`undefined` (modelled as `none`). -/
def extractAdditionalInfo (response : List Char) (type : List Char) : Option (List Char) :=
  gateStep (findCountCapture response) (decide (type = "承認".toList ∨ type = "報告".toList))
    (fun d => "【現在".toList ++ d ++ "件】".toList)
    (gateStep (findTimeMatch response) (decide (type = "了解".toList))
      (fun m => "【".toList ++ m ++ "に実行】".toList)
      (gateStep (findDataMatch response) (decide (type = "分析".toList))
        (fun m => "【データ量: ".toList ++ m ++ "】".toList)
        none))

/-! ### Response assembler (`generatePod021Response`, formatter tool lines 174–180) -/

/-- Embedding of `generatePod021Response` at the JavaScript runtime level
(TypeScript types are erased at runtime, so the category argument is an
arbitrary string).  The body performs no validation: it is the plain
concatenation `header ++ content ++ additionalPart`, where the additional
part is prefixed by one space and, by JavaScript truthiness, an empty
`additionalInfo` string contributes nothing. -/
def generatePod021Response (type content : List Char) (additionalInfo : Option (List Char)) :
    List Char :=
  let header := type ++ "：".toList
  let additionalPart :=
    match additionalInfo with
    | some a => if a = [] then [] else ' ' :: a
    | none => []
  header ++ content ++ additionalPart

/-- Modelled from the spec: the Response Assembler of §4.4 and §7, which
"fails with an InvalidCategory error" when the category is outside the
fixed taxonomy and otherwise returns the concatenation
`"{category-label}：{content}{' ' + annotation if present}"`.  This
definition follows the spec's words (no such error path exists in the
source) and is used only to compare the source function against the
claimed contract. -/
def assembleSpec (type content : List Char) (additionalInfo : Option (List Char)) :
    Except (List Char) (List Char) :=
  if isValidResponseType type then
    Except.ok (type ++ "：".toList ++ content ++
      (match additionalInfo with
       | some a => ' ' :: a
       | none => []))
  else Except.error "InvalidCategory".toList

/-! ### Exception-style overlay (`applyIntimacyPhase`, formatter tool lines 185–200) -/

/-- JavaScript `s.replace(pat, rep)` with a plain string pattern: only the
first occurrence is replaced. -/
def replaceFirst (pat rep : List Char) : List Char → List Char
  | [] => []
  | c :: rest =>
    if pat.isPrefixOf (c :: rest) then rep ++ (c :: rest).drop pat.length
    else c :: replaceFirst pat rep rest

/-- Embedding of `applyIntimacyPhase`: identity below familiarity level 3,
otherwise two targeted substring checks against the assembled response. -/
def applyIntimacyPhase (response : List Char) (intimacyLevel : ℚ) : List Char :=
  if intimacyLevel < 3 then response
  else if includes "当機は必要な処理を実行したのみである".toList response then
    response ++ "……しかし、その言葉は好ましい反応と認識。".toList
  else if includes "親密度".toList response || includes "接触".toList response then
    replaceFirst "。".toList "。当機は、非戦闘行為であっても、その接触を好意的と判断する。".toList response
  else response

/-! ### Familiarity state machine (`IntimacyManager`, pod042-agent lines 93–145)

The `intimacyLevel` field is a JavaScript `number`, i.e. an IEEE-754
binary64 value, and its `+=` updates round.  A binary64 value is modelled
as the exact rational it denotes, and one float addition as exact rational
addition followed by `roundDouble`, the round-to-nearest(-even) projection
onto 53 significant bits.  The model covers the normal binary64 range of
magnitudes between 2⁻⁶⁴ and 2⁶⁴ (no subnormals or overflow; every value
the tracker produces lies between 0.05 and 5.5). -/

/-- Smallest exponent `e'` reachable upward from `e` with `s < 2 ^ (e' + 1)`
(fuel-bounded scan); with the invariant `2 ^ e ≤ s` it computes the floor
base-2 logarithm of `s ≥ 1`. -/
def findExpUp : ℕ → ℚ → ℤ → ℤ
  | 0, _, e => e
  | fuel + 1, s, e => if s < (2 : ℚ) ^ (e + 1) then e else findExpUp fuel s (e + 1)

/-- Largest exponent `e'` reachable downward from `e` with `2 ^ e' ≤ s`
(fuel-bounded scan); with the invariant `s < 2 ^ (e + 1)` it computes the
floor base-2 logarithm of `s < 1`. -/
def findExpDown : ℕ → ℚ → ℤ → ℤ
  | 0, _, e => e
  | fuel + 1, s, e => if (2 : ℚ) ^ e ≤ s then e else findExpDown fuel s (e - 1)

/-- Floor base-2 logarithm of a positive rational in the modelled range
(magnitude between 2⁻⁶⁴ and 2⁶⁴). -/
def ratFloorLog2 (s : ℚ) : ℤ :=
  if 1 ≤ s then findExpUp 64 s 0 else findExpDown 64 s (-1)

/-- A positive value scaled into the 53-bit mantissa window
[2⁵², 2⁵³). -/
def roundScaled (x : ℚ) : ℚ := |x| * (2 : ℚ) ^ (-(ratFloorLog2 |x| - 52))

/-- The 53-bit mantissa of `x` under round-to-nearest, ties to even
(`2 * scaled` compared with `2 * ⌊scaled⌋ + 1` decides which neighbour of
the scaled value is closer). -/
def roundMantissa (x : ℚ) : ℤ :=
  if 2 * roundScaled x < 2 * (⌊roundScaled x⌋ : ℚ) + 1 then ⌊roundScaled x⌋
  else if 2 * (⌊roundScaled x⌋ : ℚ) + 1 < 2 * roundScaled x then ⌊roundScaled x⌋ + 1
  else if ⌊roundScaled x⌋ % 2 = 0 then ⌊roundScaled x⌋ else ⌊roundScaled x⌋ + 1

/-- Round-to-nearest-even projection of an exact rational onto the binary64
values (normal range): the IEEE-754 result of an arithmetic operation whose
exact value is `x`. -/
def roundDouble (x : ℚ) : ℚ :=
  if x = 0 then 0
  else
    (if x < 0 then -(roundMantissa x : ℚ) else (roundMantissa x : ℚ)) *
      (2 : ℚ) ^ (ratFloorLog2 |x| - 52)

/-- One binary64 addition: exact sum, then rounding. -/
def addDouble (a b : ℚ) : ℚ := roundDouble (a + b)

/-- The binary64 value of the source literal `0.1`
(3602879701896397 × 2⁻⁵⁵). -/
def dbl01 : ℚ := 3602879701896397 / 36028797018963968

/-- The binary64 value of the source literal `0.3`
(5404319552844595 × 2⁻⁵⁴). -/
def dbl03 : ℚ := 5404319552844595 / 18014398509481984

/-- The binary64 value of the source literal `0.05`
(3602879701896397 × 2⁻⁵⁶). -/
def dbl005 : ℚ := 3602879701896397 / 72057594037927936

/-- The mutable fields of `IntimacyManager`. -/
structure IntimacyState where
  intimacyLevel : ℚ
  interactionCount : ℕ
  deriving DecidableEq, Repr

/-- A freshly constructed `IntimacyManager` (both fields initialised to 0). -/
def initIntimacy : IntimacyState := ⟨0, 0⟩

/-- Embedding of `IntimacyManager.updateIntimacy`: increments the
interaction count, applies the gratitude bonus (`+= 0.1`), the
persona-affection bonus (`+= 0.3`) and the every-20th-interaction bonus
(`+= 0.05`) cumulatively in binary64 arithmetic, then clamps with
`Math.min(·, 5.0)` (exact on non-NaN doubles).  The bot response is
received and, as in the source, never examined. -/
def updateIntimacy (userMessage botResponse : List Char) (s : IntimacyState) : IntimacyState :=
  let n := s.interactionCount + 1
  let l1 :=
    if includes "ありがとう".toList userMessage || includes "助かる".toList userMessage then
      addDouble s.intimacyLevel dbl01
    else s.intimacyLevel
  let l2 :=
    if includes "ポッド".toList userMessage &&
       (includes "好き".toList userMessage || includes "撫で".toList userMessage) then
      addDouble l1 dbl03
    else l1
  let l3 := if n % 20 = 0 then addDouble l2 dbl005 else l2
  ⟨min l3 5, n⟩

/-- The clamped level trajectory of consecutive gratitude-only updates off
the periodic-bonus ticks: the level after the k-th such call. -/
def gratTrajectory : ℕ → ℚ
  | 0 => 0
  | k + 1 => min (addDouble (gratTrajectory k) dbl01) 5

/-- Embedding of `IntimacyManager.getIntimacyLevel`. -/
def getIntimacyLevel (s : IntimacyState) : ℚ := s.intimacyLevel

/-- Embedding of `IntimacyManager.getPhase`: the five-phase ladder derived
from the level. -/
def getPhase (s : IntimacyState) : List Char :=
  if s.intimacyLevel < 1 then "初期".toList
  else if s.intimacyLevel < 2 then "観察".toList
  else if s.intimacyLevel < 3 then "信頼".toList
  else if s.intimacyLevel < 4 then "親密".toList
  else "感情萌芽".toList

/-- A sequence of `updateIntimacy` calls, oldest first. -/
def runUpdates (s : IntimacyState) (msgs : List (List Char × List Char)) : IntimacyState :=
  msgs.foldl (fun st p => updateIntimacy p.1 p.2 st) s

/-- Position of a phase name on the fixed five-phase ladder (used to state
that the phase never regresses). -/
def phaseRank (p : List Char) : ℕ :=
  if p = "初期".toList then 0
  else if p = "観察".toList then 1
  else if p = "信頼".toList then 2
  else if p = "親密".toList then 3
  else 4

/-! ## Helper lemmas -/

/-- Mapping a function that fixes every element of a list is the identity. -/
lemma map_fixes {f : Char → Char} : ∀ {l : List Char}, (∀ c ∈ l, f c = c) → l.map f = l
  | [], _ => rfl
  | c :: rest, h => by
    rw [List.map_cons, h c (List.mem_cons_self c rest),
      map_fixes (fun d hd => h d (List.mem_cons_of_mem c hd))]

/-- A substring occurrence survives a character-wise map that fixes every
character of the pattern. -/
lemma includes_map (pat hay : List Char) (f : Char → Char)
    (hf : ∀ c ∈ pat, f c = c) (h : includes pat hay = true) :
    includes pat (hay.map f) = true := by
  induction hay with
  | nil =>
    simpa [includes] using h
  | cons c rest ih =>
    rw [includes] at h
    rw [List.map_cons, includes]
    rcases (Bool.or_eq_true _ _).mp h with hp | hrest
    · have hpre : pat <+: (c :: rest) := List.isPrefixOf_iff_prefix.mp hp
      have hmap := List.IsPrefix.map f hpre
      rw [map_fixes hf, List.map_cons] at hmap
      rw [List.isPrefixOf_iff_prefix.mpr hmap, Bool.true_or]
    · rw [ih hrest, Bool.or_true]

/-! ## Claims -/

/-- C9: the Style Transformer's output does not depend on its category
argument: for every input text and every two categories,
`formatToPod021Style` yields the same string — the category parameter is a
stable no-op for the substitution pipeline. -/
theorem c9_transformer_category_independent :
    ∀ (t c1 c2 : List Char), formatToPod021Style t c1 = formatToPod021Style t c2 :=
  fun _ _ _ => rfl

/-- C5: for every familiarity level strictly below 3.0 and every input
string, `applyIntimacyPhase` returns its response argument unchanged. -/
theorem c5_overlay_identity_below_threshold :
    ∀ (response : List Char) (level : ℚ), level < 3 →
      applyIntimacyPhase response level = response := by
  intro response level h
  simp [applyIntimacyPhase, h]

/-- Witness for C5 at response `"テスト"` and level 0. -/
theorem c5_overlay_identity_below_threshold_witness :
    applyIntimacyPhase "テスト".toList 0 = "テスト".toList :=
  c5_overlay_identity_below_threshold "テスト".toList 0 (by norm_num)

/-- C2 counterexample: at the non-member category `"無効"` the source
assembler `generatePod021Response` does not fail — it returns the ordinary
header-prefixed concatenation, whereas the spec-modelled assembler
`assembleSpec` raises the InvalidCategory error; so the claim that the
assembler "fails with an InvalidCategory error whenever the category is
not a member of the taxonomy" is false of the code. -/
theorem c2_assembler_counterexample :
    isValidResponseType "無効".toList = false ∧
    generatePod021Response "無効".toList "テスト".toList none = "無効：テスト".toList ∧
    assembleSpec "無効".toList "テスト".toList none =
      Except.error "InvalidCategory".toList := by
  have hv : isValidResponseType "無効".toList = false := by decide
  refine ⟨hv, by decide, ?_⟩
  simp at hv
  simp [assembleSpec, hv]

/-- C2 amended: the assembler never errors for any category; for a member
category (and an annotation that is absent or nonempty) it returns exactly
the concatenated string demanded by the spec, i.e. it refines the
spec-modelled assembler on the taxonomy.  Non-member categories are
silently concatenated the same way, not rejected. -/
theorem c2_assembler_amended :
    ∀ (type content : List Char) (additionalInfo : Option (List Char)),
      isValidResponseType type = true → additionalInfo ≠ some [] →
      assembleSpec type content additionalInfo =
        Except.ok (generatePod021Response type content additionalInfo) := by
  intro type content additionalInfo hv hi
  cases additionalInfo with
  | none => simp [assembleSpec, generatePod021Response, hv]
  | some a =>
    have ha : a ≠ [] := fun h0 => hi (by rw [h0])
    simp [assembleSpec, generatePod021Response, hv, ha]

/-- Witness for C2 amended: the spec's own Example 5 input. -/
theorem c2_assembler_amended_witness :
    assembleSpec "承認".toList "リストに追加した".toList (some "【現在10件】".toList) =
      Except.ok (generatePod021Response "承認".toList "リストに追加した".toList
        (some "【現在10件】".toList)) :=
  c2_assembler_amended _ _ _ (by decide) (by decide)

/-- C6: the classifier's keyword rules are evaluated in fixed order with
first-match-wins semantics: any text containing both the add/register
keyword `追加` and the confirmation keyword `確認` classifies as `承認`,
because that rule is listed first; in particular the spec's Example 1
resolves to `承認`. -/
theorem c6_classifier_first_match_wins :
    (∀ (text : List Char) (ctx : Option (List Char)),
      includes "追加".toList text = true → includes "確認".toList text = true →
      detectResponseType text ctx = "承認".toList) ∧
    detectResponseType "買い物リストに牛乳を追加して".toList none = "承認".toList := by
  constructor
  · intro text ctx h1 _h2
    have hl : includes "追加".toList (text.map jsToLower) = true :=
      includes_map _ _ _ (by decide) h1
    simp at hl
    simp [detectResponseType, hl]
  · decide

/-- Witness for C6 at a text containing both keywords. -/
theorem c6_classifier_first_match_wins_witness :
    detectResponseType "追加を確認して".toList none = "承認".toList :=
  c6_classifier_first_match_wins.1 "追加を確認して".toList none (by decide) (by decide)

/-- C8: the classifier is total and closed over the taxonomy — every
result is one of the eight fixed categories (and, being a total Lean
function, it never fails) — and when none of the six text keyword rules
matches and the context question-marker rule does not match either
(including an absent context, whose lower-cased form is the empty string),
it returns the default category `報告`. -/
theorem c8_classifier_totality_and_default :
    (∀ (text : List Char) (ctx : Option (List Char)),
      detectResponseType text ctx ∈ responseTypeValues) ∧
    (∀ (text : List Char) (ctx : Option (List Char)),
      (includes "追加".toList (text.map jsToLower) || includes "登録".toList (text.map jsToLower) ||
        includes "設定".toList (text.map jsToLower)) = false →
      (includes "わかり".toList (text.map jsToLower) || includes "了解".toList (text.map jsToLower) ||
        includes "実行".toList (text.map jsToLower)) = false →
      (includes "おすすめ".toList (text.map jsToLower) || includes "提案".toList (text.map jsToLower) ||
        includes "〜してみて".toList (text.map jsToLower)) = false →
      (includes "警告".toList (text.map jsToLower) || includes "注意".toList (text.map jsToLower) ||
        includes "危険".toList (text.map jsToLower)) = false →
      (includes "分析".toList (text.map jsToLower) || includes "データ".toList (text.map jsToLower) ||
        includes "統計".toList (text.map jsToLower)) = false →
      (includes "？".toList (text.map jsToLower) || includes "確認".toList (text.map jsToLower) ||
        includes "よろしい".toList (text.map jsToLower)) = false →
      (includes "？".toList ((ctx.map (fun l => l.map jsToLower)).getD []) ||
        includes "教えて".toList ((ctx.map (fun l => l.map jsToLower)).getD []) ||
        includes "どう".toList ((ctx.map (fun l => l.map jsToLower)).getD [])) = false →
      detectResponseType text ctx = "報告".toList) := by
  constructor
  · intro text ctx
    simp only [detectResponseType]
    split_ifs <;> decide
  · intro text ctx h1 h2 h3 h4 h5 h6 h7
    simp only [detectResponseType]
    rw [h1, h2, h3, h4, h5, h6, h7]
    simp

/-- Witness for C8 at the keyword-free text `"x"` with no context. -/
theorem c8_classifier_totality_and_default_witness :
    detectResponseType "x".toList none = "報告".toList :=
  c8_classifier_totality_and_default.2 "x".toList none (by decide) (by decide) (by decide)
    (by decide) (by decide) (by decide) (by decide)

/-- A gate step falls through when its pattern did not match or its gate is
false. -/
lemma gateStep_skip {o : Option (List Char)} {gate : Bool}
    (template : List Char → List Char) (rest : Option (List Char))
    (h : o = none ∨ gate = false) : gateStep o gate template rest = rest := by
  rcases h with h | h
  · subst h; cases gate <;> rfl
  · subst h; cases o <;> rfl

/-- C7: the extractor returns the bracketed count annotation
`"【現在10件】"` on the spec's Example 3 input with category `承認`; it
returns `undefined` for every category outside
`承認`/`報告`/`了解`/`分析`; and it returns `undefined` whenever no
pattern of the category's pattern class matches the text. -/
theorem c7_extractor_gating :
    extractAdditionalInfo "現在10件registered.".toList "承認".toList =
      some "【現在10件】".toList ∧
    (∀ (text type : List Char),
      type ≠ "承認".toList → type ≠ "報告".toList → type ≠ "了解".toList →
      type ≠ "分析".toList → extractAdditionalInfo text type = none) ∧
    (∀ (text type : List Char),
      ((type = "承認".toList ∨ type = "報告".toList) → findCountCapture text = none) →
      (type = "了解".toList → findTimeMatch text = none) →
      (type = "分析".toList → findDataMatch text = none) →
      extractAdditionalInfo text type = none) := by
  have key : ∀ (text type : List Char),
      ((type = "承認".toList ∨ type = "報告".toList) → findCountCapture text = none) →
      (type = "了解".toList → findTimeMatch text = none) →
      (type = "分析".toList → findDataMatch text = none) →
      extractAdditionalInfo text type = none := by
    intro text type hc ht hd
    have g1 : findCountCapture text = none ∨
        decide (type = "承認".toList ∨ type = "報告".toList) = false := by
      by_cases h : type = "承認".toList ∨ type = "報告".toList
      · exact Or.inl (hc h)
      · exact Or.inr (decide_eq_false h)
    have g2 : findTimeMatch text = none ∨ decide (type = "了解".toList) = false := by
      by_cases h : type = "了解".toList
      · exact Or.inl (ht h)
      · exact Or.inr (decide_eq_false h)
    have g3 : findDataMatch text = none ∨ decide (type = "分析".toList) = false := by
      by_cases h : type = "分析".toList
      · exact Or.inl (hd h)
      · exact Or.inr (decide_eq_false h)
    unfold extractAdditionalInfo
    rw [gateStep_skip _ _ g1, gateStep_skip _ _ g2, gateStep_skip _ _ g3]
  refine ⟨by decide, ?_, key⟩
  intro text type h1 h2 h3 h4
  exact key text type
    (fun h => (h.elim (fun ha => absurd ha h1) (fun hr => absurd hr h2)))
    (fun h => absurd h h3) (fun h => absurd h h4)

/-- Witness for C7 at a category outside the gated four. -/
theorem c7_extractor_gating_witness :
    extractAdditionalInfo "abc".toList "提案".toList = none :=
  c7_extractor_gating.2.1 "abc".toList "提案".toList (by decide) (by decide) (by decide)
    (by decide)

/-- Unfolding `runUpdates` over the first message. -/
lemma runUpdates_cons (s : IntimacyState) (p : List Char × List Char)
    (rest : List (List Char × List Char)) :
    runUpdates s (p :: rest) = runUpdates (updateIntimacy p.1 p.2 s) rest := rfl

/-- One-sided correctness of the upward exponent scan, valid for every
fuel: the returned exponent never overshoots the value. -/
lemma findExpUp_le : ∀ (fuel : ℕ) (s : ℚ) (e : ℤ), (2:ℚ) ^ e ≤ s →
    (2:ℚ) ^ (findExpUp fuel s e) ≤ s
  | 0, _, _, h => h
  | fuel + 1, s, e, h => by
    rw [findExpUp]
    split_ifs with hlt
    · exact h
    · exact findExpUp_le fuel s (e + 1) (not_lt.mp hlt)

/-- One-sided correctness of the downward exponent scan: with enough fuel
below the starting exponent, the returned exponent never overshoots the
value. -/
lemma findExpDown_le : ∀ (fuel : ℕ) (s : ℚ) (e : ℤ), (2:ℚ) ^ (e - (fuel:ℤ)) ≤ s →
    (2:ℚ) ^ (findExpDown fuel s e) ≤ s
  | 0, _, _, h => by simpa using h
  | fuel + 1, s, e, h => by
    rw [findExpDown]
    split_ifs with hle
    · exact hle
    · apply findExpDown_le fuel s (e - 1)
      have heq : e - 1 - (fuel:ℤ) = e - ((fuel:ℤ) + 1) := by ring
      rw [heq]
      have hc : ((fuel + 1 : ℕ) : ℤ) = (fuel:ℤ) + 1 := by push_cast; ring
      rw [hc] at h
      exact h

/-- In the modelled range the floor base-2 logarithm never overshoots. -/
lemma ratFloorLog2_le (s : ℚ) (hs : (2:ℚ) ^ (-(64:ℤ)) ≤ s) :
    (2:ℚ) ^ (ratFloorLog2 s) ≤ s := by
  unfold ratFloorLog2
  split_ifs with h1
  · exact findExpUp_le 64 s 0 (by simpa using h1)
  · apply findExpDown_le 64 s (-1)
    calc (2:ℚ) ^ ((-1:ℤ) - ((64:ℕ):ℤ)) = (2:ℚ) ^ (-(65:ℤ)) := by norm_num
      _ ≤ (2:ℚ) ^ (-(64:ℤ)) := zpow_le_zpow_right₀ (by norm_num) (by norm_num)
      _ ≤ s := hs

/-- The rounded mantissa is the floor of the scaled value or its
successor. -/
lemma roundMantissa_bounds (x : ℚ) :
    ⌊roundScaled x⌋ ≤ roundMantissa x ∧ roundMantissa x ≤ ⌊roundScaled x⌋ + 1 := by
  unfold roundMantissa
  split_ifs <;> omega

/-- Rounding a positive value in the modelled range moves it by at most
one part in 2⁵² (a full ulp, which over-approximates the true half-ulp
error and is all the order lemmas need). -/
lemma roundDouble_bounds (v : ℚ) (hv : (2:ℚ) ^ (-(64:ℤ)) ≤ v) :
    v * (1 - (2:ℚ) ^ (-(52:ℤ))) ≤ roundDouble v ∧
    roundDouble v ≤ v * (1 + (2:ℚ) ^ (-(52:ℤ))) := by
  have hv0 : 0 < v := lt_of_lt_of_le (by positivity) hv
  have habs : |v| = v := abs_of_pos hv0
  unfold roundDouble
  rw [if_neg hv0.ne', if_neg (not_lt.mpr hv0.le), habs]
  have h2e : (0:ℚ) < 2 ^ (ratFloorLog2 v - 52) := by positivity
  have h2e_le : (2:ℚ) ^ (ratFloorLog2 v - 52) ≤ v * 2 ^ (-(52:ℤ)) := by
    rw [zpow_sub₀ (by norm_num : (2:ℚ) ≠ 0), div_eq_mul_inv, ← zpow_neg]
    exact mul_le_mul_of_nonneg_right (ratFloorLog2_le v hv) (by positivity)
  have hse : roundScaled v * 2 ^ (ratFloorLog2 v - 52) = v := by
    unfold roundScaled
    rw [habs, mul_assoc, ← zpow_add₀ (by norm_num : (2:ℚ) ≠ 0)]
    simp
  have hfl : ((⌊roundScaled v⌋ : ℤ) : ℚ) ≤ roundScaled v := Int.floor_le _
  have hfl2 : roundScaled v - 1 < ((⌊roundScaled v⌋ : ℤ) : ℚ) := Int.sub_one_lt_floor _
  obtain ⟨hm1, hm2⟩ := roundMantissa_bounds v
  have hm1' : ((⌊roundScaled v⌋ : ℤ) : ℚ) ≤ (roundMantissa v : ℚ) := by exact_mod_cast hm1
  have hm2' : (roundMantissa v : ℚ) ≤ ((⌊roundScaled v⌋ : ℤ) : ℚ) + 1 := by exact_mod_cast hm2
  have hlow : (roundScaled v - 1) * 2 ^ (ratFloorLog2 v - 52) ≤
      (roundMantissa v : ℚ) * 2 ^ (ratFloorLog2 v - 52) :=
    mul_le_mul_of_nonneg_right (by linarith) h2e.le
  have hhigh : (roundMantissa v : ℚ) * 2 ^ (ratFloorLog2 v - 52) ≤
      (roundScaled v + 1) * 2 ^ (ratFloorLog2 v - 52) :=
    mul_le_mul_of_nonneg_right (by linarith) h2e.le
  have hexp1 : (roundScaled v - 1) * 2 ^ (ratFloorLog2 v - 52) =
      v - 2 ^ (ratFloorLog2 v - 52) := by rw [sub_mul, hse, one_mul]
  have hexp2 : (roundScaled v + 1) * 2 ^ (ratFloorLog2 v - 52) =
      v + 2 ^ (ratFloorLog2 v - 52) := by rw [add_mul, hse, one_mul]
  constructor
  · nlinarith [hlow, hexp1, h2e_le]
  · nlinarith [hhigh, hexp2, h2e_le]

/-- A float addition of a bonus between 1/32 and 1 to a level between 0
and 12 never shrinks the level and grows it by less than 2. -/
lemma addDouble_grow {l d : ℚ} (h0 : 0 ≤ l) (hl : l ≤ 12) (hd1 : 1/32 ≤ d)
    (hd2 : d ≤ 1) : l ≤ addDouble l d ∧ addDouble l d ≤ l + 2 := by
  have hv : (2:ℚ) ^ (-(64:ℤ)) ≤ l + d := by
    have h1 : (2:ℚ) ^ (-(64:ℤ)) = 1/18446744073709551616 := by norm_num
    rw [h1]
    linarith
  obtain ⟨hL, hU⟩ := roundDouble_bounds (l + d) hv
  have hε : (2:ℚ) ^ (-(52:ℤ)) = 1/4503599627370496 := by norm_num
  rw [hε] at hL hU
  unfold addDouble
  constructor <;> nlinarith [hL, hU]

/-- Consistency of the hardcoded constant: `dbl01` is the correctly
rounded binary64 value of the decimal literal 0.1. -/
lemma roundDouble_decimal_01 : roundDouble (1/10) = dbl01 := by
  norm_num [roundDouble, roundMantissa, roundScaled, ratFloorLog2,
    findExpUp, findExpDown, dbl01, abs_of_pos]

/-- Consistency of the hardcoded constant: `dbl03` is the correctly
rounded binary64 value of the decimal literal 0.3. -/
lemma roundDouble_decimal_03 : roundDouble (3/10) = dbl03 := by
  norm_num [roundDouble, roundMantissa, roundScaled, ratFloorLog2,
    findExpUp, findExpDown, dbl03, abs_of_pos]

/-- Consistency of the hardcoded constant: `dbl005` is the correctly
rounded binary64 value of the decimal literal 0.05. -/
lemma roundDouble_decimal_005 : roundDouble (1/20) = dbl005 := by
  norm_num [roundDouble, roundMantissa, roundScaled, ratFloorLog2,
    findExpUp, findExpDown, dbl005, abs_of_pos]

/-- Value of one `updateIntimacy` call on a gratitude message that carries
no persona-affection pair. -/
lemma updateIntimacy_gratitude (u b : List Char) (s : IntimacyState)
    (hg : (includes "ありがとう".toList u || includes "助かる".toList u) = true)
    (ha : (includes "ポッド".toList u &&
      (includes "好き".toList u || includes "撫で".toList u)) = false) :
    updateIntimacy u b s =
      ⟨min (if (s.interactionCount + 1) % 20 = 0 then
              addDouble (addDouble s.intimacyLevel dbl01) dbl005
            else addDouble s.intimacyLevel dbl01) 5,
        s.interactionCount + 1⟩ := by
  simp only [updateIntimacy]
  rw [hg, ha]
  simp

/-- Running gratitude-only messages from a state on the straight-line part
of the trajectory (count below 20, level on `gratTrajectory`) up to the
twentieth interaction lands exactly on the float accumulation value. -/
lemma runUpdates_gratitude_aux :
    ∀ (msgs : List (List Char × List Char)) (s : IntimacyState),
      (∀ p ∈ msgs,
        (includes "ありがとう".toList p.1 || includes "助かる".toList p.1) = true ∧
        (includes "ポッド".toList p.1 &&
          (includes "好き".toList p.1 || includes "撫で".toList p.1)) = false) →
      s.interactionCount + msgs.length = 20 →
      s.interactionCount < 20 →
      s.intimacyLevel = gratTrajectory s.interactionCount →
      (runUpdates s msgs).intimacyLevel =
        min (addDouble (addDouble (gratTrajectory 19) dbl01) dbl005) 5 ∧
      (runUpdates s msgs).interactionCount = 20 := by
  intro msgs
  induction msgs with
  | nil =>
    intro s _ hlen hlt _
    simp only [List.length_nil, Nat.add_zero] at hlen
    omega
  | cons p rest ih =>
    intro s h hlen hlt hlev
    have hp := h p (List.mem_cons_self p rest)
    rw [runUpdates_cons, updateIntimacy_gratitude p.1 p.2 s hp.1 hp.2]
    by_cases h19 : s.interactionCount = 19
    · have hr : rest = [] := by
        rw [List.length_cons] at hlen
        exact List.length_eq_zero.mp (by omega)
      subst hr
      rw [if_pos (by omega)]
      constructor
      · show min (addDouble (addDouble s.intimacyLevel dbl01) dbl005) 5 =
          min (addDouble (addDouble (gratTrajectory 19) dbl01) dbl005) 5
        rw [hlev, h19]
      · simp [runUpdates, h19]
    · have hne : (s.interactionCount + 1) % 20 ≠ 0 := by omega
      rw [if_neg hne]
      refine ih _ (fun q hq => h q (List.mem_cons_of_mem p hq)) ?_ ?_ ?_
      · rw [List.length_cons] at hlen; simpa using by omega
      · simp; omega
      · show min (addDouble s.intimacyLevel dbl01) 5 =
          gratTrajectory (s.interactionCount + 1)
        rw [hlev, gratTrajectory]

set_option maxHeartbeats 4000000 in
/-- The concrete binary64 accumulation of twenty gratitude bonuses and the
final periodic bonus: 4616189618054759 × 2⁻⁵¹, the double printed as
2.0500000000000003 — one ulp above the double 2.05. -/
lemma gratTrajectory_final_value :
    min (addDouble (addDouble (gratTrajectory 19) dbl01) dbl005) 5 =
      4616189618054759 / 2251799813685248 := by
  norm_num [gratTrajectory, addDouble, roundDouble, roundMantissa, roundScaled,
    ratFloorLog2, findExpUp, findExpDown, dbl01, dbl005, min_def, abs_of_pos]

/-- Level reached by twenty literal `"ありがとう"` updates from a fresh
state (through the general trajectory lemma). -/
lemma runUpdates_gratitude_replicate :
    getIntimacyLevel (runUpdates initIntimacy
      (List.replicate 20 ("ありがとう".toList, []))) =
      4616189618054759 / 2251799813685248 := by
  have hmain := runUpdates_gratitude_aux (List.replicate 20 ("ありがとう".toList, []))
    initIntimacy (by decide) (by simp [initIntimacy]) (by simp [initIntimacy])
    (by simp [initIntimacy, gratTrajectory])
  show (runUpdates initIntimacy (List.replicate 20 ("ありがとう".toList, []))).intimacyLevel = _
  rw [hmain.1, gratTrajectory_final_value]

/-- C3 counterexample: in the program's binary64 arithmetic, twenty
gratitude-marker updates from a fresh state do not land exactly on 2.05 —
the accumulated level is 2.0500000000000003, one ulp higher. -/
theorem c3_twenty_gratitude_updates_counterexample :
    getIntimacyLevel (runUpdates initIntimacy
      (List.replicate 20 ("ありがとう".toList, []))) ≠ 2.05 := by
  rw [runUpdates_gratitude_replicate]
  norm_num

/-- C3 amended: from a fresh `IntimacyManager`, twenty consecutive
`updateIntimacy` calls whose user messages each contain a gratitude marker
and no persona-reference/affection pair yield the binary64 accumulation
value 4616189618054759 × 2⁻⁵¹ = 2.0500000000000003 (the twentieth call
additionally earning the every-20th-interaction bonus; in exact arithmetic
this would be min(20 × 0.1 + 0.05, 5.0) = 2.05) and phase `信頼`
(trusting). -/
theorem c3_twenty_gratitude_updates :
    ∀ (msgs : List (List Char × List Char)),
      msgs.length = 20 →
      (∀ p ∈ msgs,
        (includes "ありがとう".toList p.1 || includes "助かる".toList p.1) = true ∧
        (includes "ポッド".toList p.1 &&
          (includes "好き".toList p.1 || includes "撫で".toList p.1)) = false) →
      getIntimacyLevel (runUpdates initIntimacy msgs) =
        4616189618054759 / 2251799813685248 ∧
      getPhase (runUpdates initIntimacy msgs) = "信頼".toList := by
  intro msgs hlen h
  have hmain := runUpdates_gratitude_aux msgs initIntimacy h
    (by simp [initIntimacy, hlen]) (by simp [initIntimacy])
    (by simp [initIntimacy, gratTrajectory])
  constructor
  · show (runUpdates initIntimacy msgs).intimacyLevel = _
    rw [hmain.1, gratTrajectory_final_value]
  · rw [getPhase, hmain.1, gratTrajectory_final_value]
    norm_num

/-- Witness for C3 amended: twenty literal `"ありがとう"` messages. -/
theorem c3_twenty_gratitude_updates_witness :
    getIntimacyLevel (runUpdates initIntimacy
      (List.replicate 20 ("ありがとう".toList, []))) =
      4616189618054759 / 2251799813685248 ∧
    getPhase (runUpdates initIntimacy
      (List.replicate 20 ("ありがとう".toList, []))) = "信頼".toList :=
  c3_twenty_gratitude_updates _ (by decide) (by decide)

/-- One update never lowers the level and keeps it within the 0–5 band
(the bonuses are positive, float addition of a positive bonus to a level
in range never shrinks it, and the `Math.min` clamp is exact). -/
lemma updateIntimacy_mono_bounds (u b : List Char) (s : IntimacyState)
    (h0 : 0 ≤ s.intimacyLevel) (h5 : s.intimacyLevel ≤ 5) :
    s.intimacyLevel ≤ (updateIntimacy u b s).intimacyLevel ∧
    0 ≤ (updateIntimacy u b s).intimacyLevel ∧
    (updateIntimacy u b s).intimacyLevel ≤ 5 := by
  have hd01a : (1:ℚ)/32 ≤ dbl01 := by norm_num [dbl01]
  have hd01b : dbl01 ≤ 1 := by norm_num [dbl01]
  have hd03a : (1:ℚ)/32 ≤ dbl03 := by norm_num [dbl03]
  have hd03b : dbl03 ≤ 1 := by norm_num [dbl03]
  have hd005a : (1:ℚ)/32 ≤ dbl005 := by norm_num [dbl005]
  have hd005b : dbl005 ≤ 1 := by norm_num [dbl005]
  have g1 := addDouble_grow (l := s.intimacyLevel) (d := dbl01) h0
    (by linarith) hd01a hd01b
  have g2a := addDouble_grow (l := addDouble s.intimacyLevel dbl01) (d := dbl03)
    (by linarith [g1.1]) (by linarith [g1.2]) hd03a hd03b
  have g2b := addDouble_grow (l := s.intimacyLevel) (d := dbl03) h0
    (by linarith) hd03a hd03b
  have g3aa := addDouble_grow (l := addDouble (addDouble s.intimacyLevel dbl01) dbl03)
    (d := dbl005) (by linarith [g1.1, g2a.1]) (by linarith [g1.2, g2a.2]) hd005a hd005b
  have g3ab := addDouble_grow (l := addDouble s.intimacyLevel dbl01) (d := dbl005)
    (by linarith [g1.1]) (by linarith [g1.2]) hd005a hd005b
  have g3ba := addDouble_grow (l := addDouble s.intimacyLevel dbl03) (d := dbl005)
    (by linarith [g2b.1]) (by linarith [g2b.2]) hd005a hd005b
  have g3bb := addDouble_grow (l := s.intimacyLevel) (d := dbl005) h0
    (by linarith) hd005a hd005b
  unfold updateIntimacy
  dsimp only
  refine ⟨le_min ?_ h5, le_min ?_ (by norm_num), min_le_right _ _⟩
  · split_ifs <;> linarith
  · split_ifs <;> linarith

/-- The 0–5 band is an invariant of any update sequence. -/
lemma runUpdates_bounds :
    ∀ (msgs : List (List Char × List Char)) (s : IntimacyState),
      0 ≤ s.intimacyLevel → s.intimacyLevel ≤ 5 →
      0 ≤ (runUpdates s msgs).intimacyLevel ∧ (runUpdates s msgs).intimacyLevel ≤ 5 := by
  intro msgs
  induction msgs with
  | nil => intro s h0 h5; exact ⟨h0, h5⟩
  | cons p rest ih =>
    intro s h0 h5
    rw [runUpdates_cons]
    have hb := updateIntimacy_mono_bounds p.1 p.2 s h0 h5
    exact ih _ hb.2.1 hb.2.2

/-- The phase ladder is monotone in the level. -/
lemma phaseRank_getPhase_mono (s s' : IntimacyState)
    (h : s.intimacyLevel ≤ s'.intimacyLevel) :
    phaseRank (getPhase s) ≤ phaseRank (getPhase s') := by
  have r0 : phaseRank "初期".toList = 0 := by decide
  have r1 : phaseRank "観察".toList = 1 := by decide
  have r2 : phaseRank "信頼".toList = 2 := by decide
  have r3 : phaseRank "親密".toList = 3 := by decide
  have r4 : phaseRank "感情萌芽".toList = 4 := by decide
  unfold getPhase
  split_ifs <;> simp only [r0, r1, r2, r3, r4] <;> first | omega | (exfalso; linarith)

/-- C4: over every update sequence from a fresh `IntimacyManager`, the
level stays within [0, 5], one further update (with arbitrary messages)
never decreases it, and the derived phase never regresses along the fixed
five-phase ladder. -/
theorem c4_monotone_clamped_invariants :
    ∀ (msgs : List (List Char × List Char)) (p : List Char × List Char),
      0 ≤ getIntimacyLevel (runUpdates initIntimacy msgs) ∧
      getIntimacyLevel (runUpdates initIntimacy msgs) ≤ 5 ∧
      getIntimacyLevel (runUpdates initIntimacy msgs) ≤
        getIntimacyLevel (updateIntimacy p.1 p.2 (runUpdates initIntimacy msgs)) ∧
      phaseRank (getPhase (runUpdates initIntimacy msgs)) ≤
        phaseRank (getPhase (updateIntimacy p.1 p.2 (runUpdates initIntimacy msgs))) := by
  intro msgs p
  have hb := runUpdates_bounds msgs initIntimacy (le_refl 0) (by norm_num [initIntimacy])
  have hm := updateIntimacy_mono_bounds p.1 p.2 (runUpdates initIntimacy msgs) hb.1 hb.2
  exact ⟨hb.1, hb.2, hm.1, phaseRank_getPhase_mono _ _ hm.1⟩

/-! ## Terminal-mark normalization lemmas (for C10 and C1)

`noDoubleMark` says two adjacent characters are not both the terminal mark;
`noWsPair` says they are not both whitespace.  A `List.Chain'` of the former
is precisely "no run of two or more `。`". -/

/-- Adjacent-character predicate: not both are the terminal mark `。`. -/
def noDoubleMark (a b : Char) : Prop := ¬(a = '。' ∧ b = '。')

/-- Adjacent-character predicate: not both are whitespace. -/
def noWsPair (a b : Char) : Prop := ¬(isJsWs a = true ∧ isJsWs b = true)

/-- Defining equation of `collapseMarks` on a cons cell. -/
lemma collapseMarks_cons (a : Char) (rest : List Char) :
    collapseMarks (a :: rest) =
      match collapseMarks rest with
      | [] => [a]
      | b :: t => if a = '。' ∧ b = '。' then b :: t else a :: b :: t := rfl

/-- `collapseMarks` maps nonempty lists to nonempty lists. -/
lemma collapseMarks_ne_nil {l : List Char} (h : l ≠ []) : collapseMarks l ≠ [] := by
  cases l with
  | nil => exact absurd rfl h
  | cons a rest =>
    rw [collapseMarks_cons]
    cases collapseMarks rest with
    | nil => simp
    | cons b t =>
      dsimp only
      split_ifs <;> simp

/-- `collapseMarks` preserves the last character. -/
lemma collapseMarks_getLast? : ∀ {l : List Char}, l ≠ [] →
    (collapseMarks l).getLast? = l.getLast?
  | [], h => absurd rfl h
  | [a], _ => by simp [collapseMarks_cons, collapseMarks]
  | a :: x :: xs, _ => by
    have hrne : x :: xs ≠ [] := by simp
    have ihr := collapseMarks_getLast? hrne
    have hcne := collapseMarks_ne_nil hrne
    rw [collapseMarks_cons]
    cases hcm : collapseMarks (x :: xs) with
    | nil => exact absurd hcm hcne
    | cons b t =>
      rw [hcm] at ihr
      rw [List.getLast?_cons_cons]
      dsimp only
      split_ifs
      · exact ihr
      · rw [List.getLast?_cons_cons]
        exact ihr

/-- The output of `collapseMarks` has no two adjacent terminal marks. -/
lemma collapseMarks_chain : ∀ l : List Char, List.Chain' noDoubleMark (collapseMarks l)
  | [] => List.chain'_nil
  | a :: rest => by
    have ih := collapseMarks_chain rest
    rw [collapseMarks_cons]
    cases hcm : collapseMarks rest with
    | nil => exact List.chain'_singleton a
    | cons b t =>
      rw [hcm] at ih
      dsimp only
      split_ifs with h
      · exact ih
      · exact List.chain'_cons.mpr ⟨h, ih⟩

/-- `collapseMarks` is the identity on lists with no two adjacent terminal
marks. -/
lemma collapseMarks_eq_self : ∀ {l : List Char}, List.Chain' noDoubleMark l →
    collapseMarks l = l
  | [], _ => rfl
  | a :: rest, h => by
    rw [collapseMarks_cons, collapseMarks_eq_self (List.chain'_cons'.mp h).2]
    cases rest with
    | nil => rfl
    | cons b t => exact if_neg (List.chain'_cons.mp h).1

/-- Defining equation of `collapseWs` on a cons cell. -/
lemma collapseWs_cons (a : Char) (rest : List Char) :
    collapseWs (a :: rest) =
      match collapseWs rest with
      | [] => if isJsWs a then [' '] else [a]
      | b :: t =>
        if isJsWs a ∧ isJsWs b then b :: t
        else (if isJsWs a then ' ' else a) :: b :: t := rfl

/-- `collapseWs` maps nonempty lists to nonempty lists. -/
lemma collapseWs_ne_nil {l : List Char} (h : l ≠ []) : collapseWs l ≠ [] := by
  cases l with
  | nil => exact absurd rfl h
  | cons a rest =>
    rw [collapseWs_cons]
    cases collapseWs rest with
    | nil => dsimp only; split_ifs <;> simp
    | cons b t => dsimp only; split_ifs <;> simp

/-- Every whitespace character in the output of `collapseWs` is the plain
space. -/
lemma collapseWs_mem_ws : ∀ {l : List Char}, ∀ c ∈ collapseWs l,
    isJsWs c = true → c = ' '
  | [], c, hc, _ => absurd hc (by simp [collapseWs])
  | a :: rest, c, hc, hw => by
    have ih : ∀ d ∈ collapseWs rest, isJsWs d = true → d = ' ' :=
      fun d hd hdw => collapseWs_mem_ws d hd hdw
    rw [collapseWs_cons] at hc
    revert hc
    cases hcw : collapseWs rest with
    | nil =>
      dsimp only
      split_ifs with hwa
      · intro hc; simpa using hc
      · intro hc
        rw [List.mem_singleton] at hc
        subst hc
        exact absurd hw (by simp [hwa])
    | cons b t =>
      dsimp only
      split_ifs with hab hwa
      · intro hc
        exact ih c (hcw ▸ hc) hw
      · intro hc
        rcases List.mem_cons.mp hc with hceq | hctail
        · exact hceq
        · exact ih c (hcw ▸ hctail) hw
      · intro hc
        rcases List.mem_cons.mp hc with hceq | hctail
        · subst hceq; exact absurd hw (by simp [hwa])
        · exact ih c (hcw ▸ hctail) hw

/-- The head of the output of `collapseWs` is a space or the original
head. -/
lemma collapseWs_head : ∀ {l : List Char}, l ≠ [] →
    (collapseWs l).head? = some ' ' ∨ (collapseWs l).head? = l.head?
  | [], h => absurd rfl h
  | a :: rest, _ => by
    rw [collapseWs_cons]
    cases hcw : collapseWs rest with
    | nil =>
      dsimp only
      split_ifs
      · exact Or.inl rfl
      · exact Or.inr rfl
    | cons b t =>
      dsimp only
      split_ifs with hab hwa
      · left
        have hb : b = ' ' :=
          collapseWs_mem_ws b (hcw ▸ List.mem_cons_self b t) (by simp [hab.2])
        rw [hb]
        rfl
      · exact Or.inl rfl
      · exact Or.inr rfl

/-- `collapseWs` preserves a final terminal mark. -/
lemma collapseWs_getLast? : ∀ {l : List Char}, l.getLast? = some '。' →
    (collapseWs l).getLast? = some '。'
  | [], h => by simp at h
  | [a], h => by
    simp only [List.getLast?_singleton, Option.some_inj] at h
    subst h
    rw [collapseWs_cons]
    simp [collapseWs, show isJsWs '。' = false from by decide]
  | a :: x :: xs, h => by
    rw [List.getLast?_cons_cons] at h
    have ihr := collapseWs_getLast? h
    have hcne : collapseWs (x :: xs) ≠ [] := collapseWs_ne_nil (by simp)
    rw [collapseWs_cons]
    cases hcw : collapseWs (x :: xs) with
    | nil => exact absurd hcw hcne
    | cons b t =>
      rw [hcw] at ihr
      dsimp only
      split_ifs
      · exact ihr
      · rw [List.getLast?_cons_cons]
        exact ihr
      · rw [List.getLast?_cons_cons]
        exact ihr

/-- `collapseWs` preserves the absence of adjacent terminal marks. -/
lemma collapseWs_chain_nd : ∀ {l : List Char}, List.Chain' noDoubleMark l →
    List.Chain' noDoubleMark (collapseWs l)
  | [], _ => List.chain'_nil
  | a :: rest, h => by
    have ih := collapseWs_chain_nd (List.chain'_cons'.mp h).2
    rw [collapseWs_cons]
    cases hcw : collapseWs rest with
    | nil =>
      dsimp only
      split_ifs <;> exact List.chain'_singleton _
    | cons b t =>
      rw [hcw] at ih
      dsimp only
      split_ifs with hab hwa
      · exact ih
      · refine List.chain'_cons.mpr ⟨?_, ih⟩
        intro hcontra
        exact absurd hcontra.1 (by decide)
      · refine List.chain'_cons.mpr ⟨?_, ih⟩
        have hrne : rest ≠ [] := by
          intro h0; rw [h0] at hcw; simp [collapseWs] at hcw
        rcases collapseWs_head hrne with hh | hh
        · rw [hcw] at hh
          simp only [List.head?_cons, Option.some_inj] at hh
          subst hh
          intro hcontra
          exact absurd hcontra.2 (by decide)
        · rw [hcw] at hh
          cases rest with
          | nil => exact absurd rfl hrne
          | cons x xs =>
            simp only [List.head?_cons, Option.some_inj] at hh
            subst hh
            exact (List.chain'_cons.mp h).1

/-- No two adjacent whitespace characters survive `collapseWs`. -/
lemma collapseWs_chain_ws : ∀ l : List Char, List.Chain' noWsPair (collapseWs l)
  | [] => List.chain'_nil
  | a :: rest => by
    have ih := collapseWs_chain_ws rest
    rw [collapseWs_cons]
    cases hcw : collapseWs rest with
    | nil =>
      dsimp only
      split_ifs <;> exact List.chain'_singleton _
    | cons b t =>
      rw [hcw] at ih
      dsimp only
      split_ifs with hab hwa
      · exact ih
      · refine List.chain'_cons.mpr ⟨?_, ih⟩
        intro hcontra
        exact hab ⟨hwa, hcontra.2⟩
      · refine List.chain'_cons.mpr ⟨?_, ih⟩
        intro hcontra
        exact hwa hcontra.1

/-- `collapseWs` is the identity on whitespace-normalized lists (no two
adjacent whitespace characters, every whitespace character a plain
space). -/
lemma collapseWs_eq_self : ∀ {l : List Char}, List.Chain' noWsPair l →
    (∀ c ∈ l, isJsWs c = true → c = ' ') → collapseWs l = l
  | [], _, _ => rfl
  | a :: rest, hc, hm => by
    have ih := collapseWs_eq_self (List.chain'_cons'.mp hc).2
      (fun d hd hdw => hm d (List.mem_cons_of_mem a hd) hdw)
    rw [collapseWs_cons, ih]
    cases rest with
    | nil =>
      dsimp only
      split_ifs with hwa
      · rw [hm a (List.mem_cons_self a []) hwa]
      · rfl
    | cons b t =>
      dsimp only
      rw [if_neg (List.chain'_cons.mp hc).1]
      split_ifs with hwa
      · rw [hm a (List.mem_cons_self a (b :: t)) hwa]
      · rfl

/-- A list ending in the terminal mark trims to a nonempty list still
ending in the terminal mark on the left side. -/
lemma trimLeft_ne_nil_getLast? {l : List Char} (h : l.getLast? = some '。') :
    trimLeft l ≠ [] ∧ (trimLeft l).getLast? = some '。' := by
  unfold trimLeft
  have hne : l.dropWhile isJsWs ≠ [] := by
    rw [Ne, List.dropWhile_eq_nil_iff]
    intro hall
    have hmem : '。' ∈ l := List.mem_of_mem_getLast? (Option.mem_def.mpr h)
    exact absurd (hall '。' hmem) (by decide)
  refine ⟨hne, ?_⟩
  obtain ⟨p, hp⟩ := List.dropWhile_suffix (l := l) isJsWs
  rw [← hp, List.getLast?_append_of_ne_nil _ hne] at h
  exact h

/-- Right trimming is the identity on a list ending in the terminal mark. -/
lemma trimRight_eq_self {l : List Char} (h : l.getLast? = some '。') :
    trimRight l = l := by
  unfold trimRight
  have hrev : l.reverse.head? = some '。' := by rw [List.head?_reverse, h]
  cases hr : l.reverse with
  | nil => rw [hr] at hrev; simp at hrev
  | cons x xs =>
    rw [hr] at hrev
    simp only [List.head?_cons, Option.some_inj] at hrev
    subst hrev
    rw [List.dropWhile_cons]
    rw [if_neg (show ¬(isJsWs '。' = true) from by decide)]
    rw [← hr, List.reverse_reverse]

/-- Left trimming is the identity when the head is not whitespace. -/
lemma trimLeft_eq_self {l : List Char}
    (h : ∀ c, l.head? = some c → isJsWs c = false) : trimLeft l = l := by
  unfold trimLeft
  cases l with
  | nil => rfl
  | cons a rest =>
    rw [List.dropWhile_cons, if_neg]
    simp [h a rfl]

/-- The head of a left-trimmed list is never whitespace. -/
lemma trimLeft_head_not_ws {l : List Char} {c : Char}
    (h : (trimLeft l).head? = some c) : isJsWs c = false := by
  unfold trimLeft at h
  have hne : l.dropWhile isJsWs ≠ [] := by
    intro h0; rw [h0] at h; simp at h
  have hh := List.head_dropWhile_not isJsWs l hne
  rw [List.head?_eq_head hne, Option.some_inj] at h
  rw [← h]
  exact hh

/-- A `Chain'` survives `dropWhile`. -/
lemma chain'_dropWhile {R : Char → Char → Prop} {p : Char → Bool} :
    ∀ {l : List Char}, List.Chain' R l → List.Chain' R (l.dropWhile p)
  | [], _ => List.chain'_nil
  | a :: rest, h => by
    rw [List.dropWhile_cons]
    split_ifs
    · exact chain'_dropWhile (List.chain'_cons'.mp h).2
    · exact h

/-- A `Chain'` of a symmetric relation survives reversal. -/
lemma chain'_reverse_of {R : Char → Char → Prop} (hsym : ∀ a b, R a b → R b a)
    {l : List Char} (h : List.Chain' R l) : List.Chain' R l.reverse :=
  List.chain'_reverse.mpr (h.imp hsym)

/-- A `Chain'` of a symmetric relation survives right trimming. -/
lemma chain'_trimRight {R : Char → Char → Prop} (hsym : ∀ a b, R a b → R b a)
    {l : List Char} (h : List.Chain' R l) : List.Chain' R (trimRight l) := by
  unfold trimRight
  exact chain'_reverse_of hsym (chain'_dropWhile (chain'_reverse_of hsym h))

/-- Left trimming only removes elements. -/
lemma mem_trimLeft {c : Char} {l : List Char} (h : c ∈ trimLeft l) : c ∈ l :=
  List.IsSuffix.mem h (List.dropWhile_suffix _)

/-- The shape of the normalization stage's output: nonempty, terminated by
exactly the mark `。`, no adjacent marks, whitespace-normalized, and led by
a non-whitespace character. -/
lemma normalizeTerminal_props (s : List Char) :
    normalizeTerminal s ≠ [] ∧
    (normalizeTerminal s).getLast? = some '。' ∧
    List.Chain' noDoubleMark (normalizeTerminal s) ∧
    List.Chain' noWsPair (normalizeTerminal s) ∧
    (∀ c ∈ normalizeTerminal s, isJsWs c = true → c = ' ') ∧
    (∀ c, (normalizeTerminal s).head? = some c → isJsWs c = false) := by
  have hpad : (padMark s).getLast? = some '。' := by
    unfold padMark
    split_ifs with hp
    · exact hp
    · exact List.getLast?_concat _
  have hpne : padMark s ≠ [] := by
    intro h0; rw [h0] at hpad; simp at hpad
  have hcm_last : (collapseMarks (padMark s)).getLast? = some '。' := by
    rw [collapseMarks_getLast? hpne]; exact hpad
  have hy_last : (collapseWs (collapseMarks (padMark s))).getLast? = some '。' :=
    collapseWs_getLast? hcm_last
  have hy_nd : List.Chain' noDoubleMark (collapseWs (collapseMarks (padMark s))) :=
    collapseWs_chain_nd (collapseMarks_chain _)
  have hy_ws : List.Chain' noWsPair (collapseWs (collapseMarks (padMark s))) :=
    collapseWs_chain_ws _
  have htl := trimLeft_ne_nil_getLast? hy_last
  have hN : normalizeTerminal s = trimLeft (collapseWs (collapseMarks (padMark s))) := by
    unfold normalizeTerminal jsTrim
    exact trimRight_eq_self htl.2
  rw [hN]
  refine ⟨htl.1, htl.2, chain'_dropWhile hy_nd, chain'_dropWhile hy_ws, ?_, ?_⟩
  · intro c hc hw
    exact collapseWs_mem_ws c (mem_trimLeft hc) hw
  · intro c hc
    exact trimLeft_head_not_ws hc

/-- The terminal-mark normalization stage is idempotent. -/
lemma normalizeTerminal_idem (s : List Char) :
    normalizeTerminal (normalizeTerminal s) = normalizeTerminal s := by
  obtain ⟨hne, hlast, hnd, hws, hmem, hhead⟩ := normalizeTerminal_props s
  have h1 : padMark (normalizeTerminal s) = normalizeTerminal s := by
    unfold padMark; rw [if_pos hlast]
  have h2 : collapseMarks (normalizeTerminal s) = normalizeTerminal s :=
    collapseMarks_eq_self hnd
  have h3 : collapseWs (normalizeTerminal s) = normalizeTerminal s :=
    collapseWs_eq_self hws hmem
  have h4 : trimLeft (normalizeTerminal s) = normalizeTerminal s :=
    trimLeft_eq_self hhead
  have h5 : trimRight (normalizeTerminal s) = normalizeTerminal s :=
    trimRight_eq_self hlast
  show jsTrim (collapseWs (collapseMarks (padMark (normalizeTerminal s)))) =
    normalizeTerminal s
  rw [h1, h2, h3]
  unfold jsTrim
  rw [h4, h5]

/-- The transformer is the normalization stage composed with the
substitution chain (its defining equation). -/
lemma formatToPod021Style_eq (response type : List Char) :
    formatToPod021Style response type = normalizeTerminal (applySubstitutions response) := rfl

/-- The three output-shape facts of the normalization stage needed for the
transformer: nonempty, mark-terminated, no adjacent marks. -/
lemma normalizeTerminal_shape (s : List Char) :
    normalizeTerminal s ≠ [] ∧
    (normalizeTerminal s).getLast? = some '。' ∧
    List.Chain' noDoubleMark (normalizeTerminal s) :=
  ⟨(normalizeTerminal_props s).1, (normalizeTerminal_props s).2.1,
    (normalizeTerminal_props s).2.2.1⟩

/-- C10: for every input string and category (including the empty input),
the Style Transformer returns a nonempty string that ends with the
terminal mark `。` and contains no run of two or more consecutive `。` —
so it ends with exactly one terminal mark. -/
theorem c10_transformer_terminal_shape :
    ∀ (t c : List Char),
      formatToPod021Style t c ≠ [] ∧
      (formatToPod021Style t c).getLast? = some '。' ∧
      List.Chain' noDoubleMark (formatToPod021Style t c) := by
  intro t c
  rewrite [formatToPod021Style_eq]
  exact normalizeTerminal_shape (applySubstitutions t)

set_option maxHeartbeats 1600000 in
/-- C1 counterexample: the Style Transformer is not idempotent.  On the
input `"でありがとうす"` the gratitude-deletion rule (which runs after the
politeness rules) glues `で` and `す` into a fresh `です`, so the first
pass returns `"です。"` while a second pass reduces that to `"。"`. -/
theorem c1_transformer_not_idempotent_counterexample :
    formatToPod021Style (formatToPod021Style "でありがとうす".toList "報告".toList)
        "報告".toList ≠
      formatToPod021Style "でありがとうす".toList "報告".toList := by
  decide

/-- C1 amended: idempotence holds for the terminal-mark normalization
stage (steps 4–5) rather than for the whole transformer: re-running the
normalization stage on any transformer output changes nothing. -/
theorem c1_normalization_idempotent :
    ∀ (t c : List Char),
      normalizeTerminal (formatToPod021Style t c) = formatToPod021Style t c := by
  intro t c
  rewrite [formatToPod021Style_eq]
  exact normalizeTerminal_idem (applySubstitutions t)

end Pod021
